import Mathlib

/-!
Verification of the ABI-to-IR lowering subsystem (dispatch-table generation)
of the `fe` compiler, together with the semantic-layer assignment entry point.

The Rust sources embedded here are `src/compiler/src/yul/runtime/abi.rs`
(selector hashing, case and switch construction) and
`src/semantics/src/traversal/assignments.rs` (the `assign` traversal).
Machine integers are modelled as `Nat` with explicit 64-bit masking where
Keccak lane arithmetic overflows.
-/

namespace Fe

/-! ## Keccak-256 (tiny_keccak, legacy 0x01 padding, rate 136)

A faithful model of the Keccak-f[1600] permutation and the sponge used by
`tiny_keccak::Keccak::v256()`, operating on `Nat` lanes masked to 64 bits.
Bytes are `Nat`s below 256; lanes are little-endian groups of 8 bytes. -/

def mask64 : Nat := 0xffffffffffffffff

def rotl64 (x n : Nat) : Nat :=
  ((x <<< (n % 64)) ||| (x >>> (64 - n % 64))) &&& mask64

/-- Round constants of Keccak-f[1600]. -/
def keccakRC : List Nat :=
  [0x0000000000000001, 0x0000000000008082, 0x800000000000808a, 0x8000000080008000,
   0x000000000000808b, 0x0000000080000001, 0x8000000080008081, 0x8000000000008009,
   0x000000000000008a, 0x0000000000000088, 0x0000000080008009, 0x000000008000000a,
   0x000000008000808b, 0x800000000000008b, 0x8000000000008089, 0x8000000000008003,
   0x8000000000008002, 0x8000000000000080, 0x000000000000800a, 0x800000008000000a,
   0x8000000080008081, 0x8000000000008080, 0x0000000080000001, 0x8000000080008008]

/-- Rotation offsets, indexed `rotOff x y` with lane `(x, y)` stored at `x + 5*y`. -/
def rotOff (x y : Nat) : Nat :=
  ([[0, 1, 62, 28, 27],
    [36, 44, 6, 55, 20],
    [3, 10, 43, 25, 39],
    [41, 45, 15, 21, 8],
    [18, 2, 61, 56, 14]].getD (y % 5) []).getD (x % 5) 0

/-- Lane accessor on the flat 25-lane state, coordinates taken modulo 5. -/
def lane (s : List Nat) (x y : Nat) : Nat := s.getD (x % 5 + 5 * (y % 5)) 0

/-- One round of Keccak-f[1600]: theta, rho, pi, chi, iota. -/
def keccakRound (s : List Nat) (rc : Nat) : List Nat :=
  let c : Nat → Nat := fun x =>
    lane s x 0 ^^^ lane s x 1 ^^^ lane s x 2 ^^^ lane s x 3 ^^^ lane s x 4
  let d : Nat → Nat := fun x => c ((x + 4) % 5) ^^^ rotl64 (c ((x + 1) % 5)) 1
  let a : List Nat := (List.range 25).map (fun i => lane s (i % 5) (i / 5) ^^^ d (i % 5))
  let b : List Nat := (List.range 25).map (fun i =>
    let x := (i % 5 + 3 * (i / 5)) % 5
    let y := i % 5
    rotl64 (lane a x y) (rotOff x y))
  let e : List Nat := (List.range 25).map (fun i =>
    let x := i % 5
    let y := i / 5
    lane b x y ^^^ ((mask64 ^^^ lane b (x + 1) y) &&& lane b (x + 2) y))
  match e with
  | a0 :: rest => (a0 ^^^ rc) :: rest
  | [] => []

def keccakF (s : List Nat) : List Nat := keccakRC.foldl keccakRound s

/-- Packs a 136-byte block into 17 little-endian 64-bit lanes. -/
def bytesToLanes (block : List Nat) : List Nat :=
  (List.range 17).map (fun i =>
    (List.range 8).foldl (fun acc j => acc + (block.getD (8 * i + j) 0 <<< (8 * j))) 0)

/-- XORs a rate-sized block into the first 17 lanes of the state. -/
def xorBlock (s block : List Nat) : List Nat :=
  let lanes := bytesToLanes block
  (List.range 25).map (fun i => s.getD i 0 ^^^ lanes.getD i 0)

/-- Legacy Keccak multi-rate padding: append 0x01, zero-fill, set the top bit
of the final byte of the last rate-sized block. -/
def keccakPad (msg : List Nat) : List Nat :=
  let padLen := 136 - msg.length % 136
  if padLen = 1 then msg ++ [0x81]
  else msg ++ [0x01] ++ List.replicate (padLen - 2) 0 ++ [0x80]

/-- Splits a message into rate-sized (136-byte) blocks; the fuel argument
only bounds the recursion and any fuel of at least the block count is exact. -/
def splitBlocks : Nat → List Nat → List (List Nat)
  | 0, _ => []
  | _, [] => []
  | fuel + 1, msg => msg.take 136 :: splitBlocks fuel (msg.drop 136)

def absorbBlocks (s : List Nat) : List (List Nat) → List Nat
  | [] => s
  | b :: rest => absorbBlocks (keccakF (xorBlock s b)) rest

def absorb (s msg : List Nat) : List Nat := absorbBlocks s (splitBlocks msg.length msg)

/-- Reads `n` output bytes from the state, little-endian within each lane. -/
def squeezeBytes (s : List Nat) (n : Nat) : List Nat :=
  (List.range n).map (fun i => (s.getD (i / 8) 0 >>> (8 * (i % 8))) &&& 0xff)

/-- Keccak-256 of a byte string, truncated to the first `n` output bytes
(`tiny_keccak` finalized into an `n`-byte buffer). -/
def keccakBytes (msg : List Nat) (n : Nat) : List Nat :=
  squeezeBytes (absorb (List.replicate 25 0) (keccakPad msg)) n

/-- UTF-8 bytes of a string; on the ASCII signature strings used by the
ABI layer this is the codepoint of each character. -/
def strBytes (s : String) : List Nat := s.data.map Char.toNat

/-- Lowercase hex rendering of a byte list, two digits per byte
(`hex::encode`). -/
def hexDigit (n : Nat) : Char := "0123456789abcdef".toList.getD n '0'

def hexByte (b : Nat) : String := String.mk [hexDigit (b / 16), hexDigit (b % 16)]

def hexEncode (bs : List Nat) : String := String.join (bs.map hexByte)

/-! ## Type vocabulary (`yul/namespace/types.rs`)

The enum shapes (`Base`, `Array`, `FixedSize`) are those referenced by
`abi.rs`. -/

inductive Base
  | u256
  | address
  | byte
deriving DecidableEq, Repr

structure Array where
  dimension : Nat
  inner : Base
deriving DecidableEq, Repr

inductive FixedSize
  | base : Base → FixedSize
  | array : Array → FixedSize
deriving DecidableEq, Repr

/-- Modelled from the spec: the byte width carried by each scalar type
(`types.rs` is not under `src/`): 32 for the 256-bit unsigned integer and for
address-as-word, 1 for a single byte. -/
def Base.size : Base → Nat
  | .u256 => 32
  | .address => 32
  | .byte => 1

/-- Modelled from the spec: a composite's total byte width is
dimension × inner scalar width (`types.rs` is not under `src/`). -/
def Array.size (a : Array) : Nat := a.dimension * a.inner.size

def FixedSize.size : FixedSize → Nat
  | .base b => b.size
  | .array a => a.size

/-! ## Yul IR fragment (`yultsur` subset)

Only the constructors produced by `abi.rs` are modelled. `yultsur`
literals are strings, so a literal built by `literal_expression!` holds
the decimal rendering of the number and a selector literal holds the
`0x`-prefixed hex string. Case bodies in `abi.rs` consist only of
`let v := f(args)` bindings and bare call statements, modelled by
`CaseStmt`. -/

inductive YulExpression
  | literal : String → YulExpression
  | ident : String → YulExpression
  | call : String → List YulExpression → YulExpression

inductive CaseStmt
  | letCall : String → String → List YulExpression → CaseStmt
  | exprCall : String → List YulExpression → CaseStmt

structure Case where
  selector : String
  body : List CaseStmt

structure Switch where
  scrutinee : YulExpression
  cases : List Case

/-! ## `yul/runtime/abi.rs` -/

structure CompileError where
  message : String
deriving DecidableEq, Repr

/-- Modelled from the spec: the Contract Definition Table maps names to
`Function {params, returns}` or to other, non-callable definition kinds
(`scopes.rs` with `ContractDef` is not under `src/`; `abi.rs` only
destructures the `Function` variant and treats every other variant
uniformly). -/
inductive ContractDef
  | function : List FixedSize → Option FixedSize → ContractDef
  | other : ContractDef
deriving DecidableEq, Repr

def abi_type_base : Base → String
  | .u256 => "uint256"
  | .address => "address"
  | .byte => "byte"

def abi_type : FixedSize → String
  | .base b => abi_type_base b
  | .array a =>
    if a.inner = Base.byte then "bytes" ++ toString a.dimension
    else abi_type_base a.inner ++ "[" ++ toString a.dimension ++ "]"

/-- Canonical signature string built inside `selector_literal`: the name,
then the parameters' ABI type names joined by commas inside parentheses. -/
def signature (name : String) (params : List FixedSize) : String :=
  name ++ "(" ++ String.intercalate "," (params.map abi_type) ++ ")"

/-- Embeds `selector_literal`: keccak-256 of the signature, finalized into a
4-byte buffer, hex-encoded with a `0x` prefix. -/
def selector_literal (name : String) (params : List FixedSize) : String :=
  "0x" ++ hexEncode (keccakBytes (strBytes (signature name params)) 4)

/-- Embeds `parameter_expressions`: the running pointer starts at 4 and
advances by each parameter's size; scalars load via `callval`, composites
copy via `calltomem`. -/
def paramExprsFrom : Nat → List FixedSize → List YulExpression
  | _, [] => []
  | ptr, p :: rest =>
    (match p with
     | .base _ => YulExpression.call "callval"
         [.literal (toString ptr), .literal (toString p.size)]
     | .array _ => YulExpression.call "calltomem"
         [.literal (toString ptr), .literal (toString p.size)]) ::
    paramExprsFrom (ptr + p.size) rest

def parameter_expressions (params : List FixedSize) : List YulExpression :=
  paramExprsFrom 4 params

/-- Embeds `function_call_case`: matches the selector and calls the function;
an array result is returned from its pointer, a base result is stored at
memory offset 0 and returned, and a void function is a bare call. -/
def function_call_case (name : String) (params : List FixedSize)
    (returns : Option FixedSize) : Case :=
  let selector := selector_literal name params
  let paramExprs := parameter_expressions params
  match returns with
  | some r =>
    match r with
    | .array _ =>
      { selector := selector
        body := [CaseStmt.letCall "return_ptr" name paramExprs,
                 CaseStmt.exprCall "return"
                   [.ident "return_ptr", .literal (toString r.size)]] }
    | .base _ =>
      { selector := selector
        body := [CaseStmt.letCall "return_val" name paramExprs,
                 CaseStmt.exprCall "mstore" [.literal "0", .ident "return_val"],
                 CaseStmt.exprCall "return"
                   [.literal "0", .literal (toString r.size)]] }
  | none =>
      { selector := selector
        body := [CaseStmt.exprCall name paramExprs] }

/-- Embeds `case` (named `case'` since `case` is reserved in Lean): looks the
name up in the definition table and builds its dispatch case, failing on a
non-function definition or a missing entry. -/
def case' (name : String) (defs : String → Option ContractDef) :
    Except CompileError Case :=
  match defs name with
  | some (ContractDef.function params returns) =>
    Except.ok (function_call_case name params returns)
  | some _ => Except.error ⟨"Cannot create case from definition"⟩
  | none => Except.error ⟨"No definition for name"⟩

/-- Embeds the `collect::<Result<Vec<yul::Case>, CompileError>>()` in
`switch`: left-to-right, stopping at the first error. -/
def collectCases (defs : String → Option ContractDef) :
    List String → Except CompileError (List Case)
  | [] => Except.ok []
  | n :: rest => do
    let c ← case' n defs
    let cs ← collectCases defs rest
    pure (c :: cs)

/-- Embeds `switch`: builds every interface entry's case and wraps them in a
switch on `callval(0, 4)`. -/
def switch (interface : List String) (defs : String → Option ContractDef) :
    Except CompileError Switch :=
  (collectCases defs interface).map (fun cases =>
    { scrutinee := YulExpression.call "callval" [.literal "0", .literal "4"]
      cases := cases })

/-! ## `semantics/src/traversal/assignments.rs`

The traversal is CPS-free and sequential; panics (`unimplemented!`,
`unreachable!`) are modelled as a third `Outcome` alongside `Ok`/`Err`.
The expression and slice analyzers live in `traversal/expressions.rs`,
outside the embedded sources, so `assign` is parametric in them; the
claims settled here do not depend on their behavior. -/

inductive SemanticError
  | unassignableExpression
deriving DecidableEq, Repr

/-- Minimal slice of the `fe_parser` AST used by `assign`. -/
inductive Expr
  | name : String → Expr
  | subscript : Expr → Expr → Expr
  | otherExpr : Expr
deriving DecidableEq, Repr

inductive FuncStmt
  | assignStmt : List Expr → Expr → FuncStmt
  | otherStmt : FuncStmt
deriving DecidableEq, Repr

/-- Result of running a Rust function that may return `Ok`, return `Err`,
or panic. -/
inductive Outcome (α : Type)
  | ok : α → Outcome α
  | err : SemanticError → Outcome α
  | panicked : String → Outcome α
deriving DecidableEq, Repr

def liftExcept : Except SemanticError Unit → Outcome Unit
  | Except.ok _ => Outcome.ok ()
  | Except.error e => Outcome.err e

/-- Embeds `assign_name`: analyzes the target then the value expression. -/
def assign_name (exprA : Expr → Except SemanticError Unit)
    (target value : Expr) : Except SemanticError Unit := do
  let _ ← exprA target
  let _ ← exprA value
  Except.ok ()

/-- Embeds `assign_subscript`: analyzes the subscripted value, the assigned
value, and the slice index; any other target shape is `unreachable!`. -/
def assign_subscript (exprA : Expr → Except SemanticError Unit)
    (slicesA : Expr → Except SemanticError Unit)
    (target value : Expr) : Outcome Unit :=
  match target with
  | Expr.subscript tv slices =>
    liftExcept (do
      let _ ← exprA tv
      let _ ← exprA value
      let _ ← slicesA slices
      Except.ok ())
  | _ => Outcome.panicked "internal error: entered unreachable code"

/-- Embeds `assign`: multi-target assignments hit `unimplemented!`; a single
target dispatches on its shape; an empty target list succeeds; a
non-assignment statement is `unreachable!`. -/
def assign (exprA : Expr → Except SemanticError Unit)
    (slicesA : Expr → Except SemanticError Unit)
    (stmt : FuncStmt) : Outcome Unit :=
  match stmt with
  | FuncStmt.assignStmt targets value =>
    if targets.length > 1 then Outcome.panicked "not implemented"
    else
      match targets.head? with
      | some target =>
        match target with
        | Expr.name _ => liftExcept (assign_name exprA target value)
        | Expr.subscript _ _ => assign_subscript exprA slicesA target value
        | _ => Outcome.err SemanticError.unassignableExpression
      | none => Outcome.ok ()
  | _ => Outcome.panicked "internal error: entered unreachable code"

/-! ## Statement-side helper definitions -/

/-- The accessor expression `parameter_expressions` emits for parameter `p`
at running offset `off`. -/
def accessorExpr (p : FixedSize) (off : Nat) : YulExpression :=
  match p with
  | .base _ => YulExpression.call "callval"
      [.literal (toString off), .literal (toString p.size)]
  | .array _ => YulExpression.call "calltomem"
      [.literal (toString off), .literal (toString p.size)]

/-- Start offset of the `i`-th parameter: 4 plus the widths of all preceding
parameters. -/
def offsetAt (params : List FixedSize) (i : Nat) : Nat :=
  4 + ((params.take i).map FixedSize.size).sum

/-- Whether a case statement is a Yul `return` call. -/
def is_return : CaseStmt → Bool
  | CaseStmt.exprCall "return" _ => true
  | _ => false

/-! ## Theorems -/

/-- C4: the dispatch cases built by `function_call_case` for the same name
and parameter list are keyed by the same selector literal for any two
return-type options: the selector depends only on the name and the ordered
parameter types, never on the return type. -/
theorem function_call_case_selector_independent_of_returns :
    ∀ (name : String) (params : List FixedSize) (r1 r2 : Option FixedSize),
      (function_call_case name params r1).selector =
        (function_call_case name params r2).selector := by
  intro name params r1 r2
  rcases r1 with _ | f1 <;> rcases r2 with _ | f2
  · rfl
  · rcases f2 with b2 | a2 <;> rfl
  · rcases f1 with b1 | a1 <;> rfl
  · rcases f1 with b1 | a1 <;> rcases f2 with b2 | a2 <;> rfl

/-- C6: the dispatch case for a function with no return type has as its body
exactly one bare call to the function's routine on its decoded arguments,
and (as long as the routine is not itself named "return") no statement of
the body is a Yul return, so no return of nonzero length is ever emitted. -/
theorem function_call_case_void_no_return :
    ∀ (name : String) (params : List FixedSize),
      (function_call_case name params none).body =
        [CaseStmt.exprCall name (parameter_expressions params)] ∧
      (name ≠ "return" →
        (function_call_case name params none).body.all
          (fun s => ! is_return s) = true) := by
  intro name params
  refine ⟨rfl, fun h => ?_⟩
  simp only [function_call_case, List.all_cons, List.all_nil, Bool.and_true]
  simp only [is_return]
  split
  · next a heq =>
    injection heq with hn ha
    exact absurd hn h
  · rfl

/-- C7: a scalar-returning dispatch case binds the call's result, writes it
to memory offset 0, and returns that region with length exactly the
scalar's byte width, which is 32 for the word-sized integer and address
conventions; an array-returning case returns the region at the pointer
yielded by the call with length the return type's total byte width. -/
theorem function_call_case_returns_encoding :
    ∀ (name : String) (params : List FixedSize),
      (∀ b : Base,
        (function_call_case name params (some (FixedSize.base b))).body =
          [CaseStmt.letCall "return_val" name (parameter_expressions params),
           CaseStmt.exprCall "mstore" [.literal "0", .ident "return_val"],
           CaseStmt.exprCall "return"
             [.literal "0", .literal (toString (FixedSize.base b).size)]]) ∧
      ((FixedSize.base Base.u256).size = 32 ∧
       (FixedSize.base Base.address).size = 32) ∧
      (∀ a : Array,
        (function_call_case name params (some (FixedSize.array a))).body =
          [CaseStmt.letCall "return_ptr" name (parameter_expressions params),
           CaseStmt.exprCall "return"
             [.ident "return_ptr", .literal (toString (FixedSize.array a).size)]]) := by
  intro name params
  exact ⟨fun b => rfl, ⟨rfl, rfl⟩, fun a => rfl⟩

/-- Witness for C6 at a parameterless routine named "foo". -/
theorem function_call_case_void_no_return_witness :
    (function_call_case "foo" [] none).body =
      [CaseStmt.exprCall "foo" (parameter_expressions [])] ∧
    (function_call_case "foo" [] none).body.all
      (fun s => ! is_return s) = true :=
  ⟨(function_call_case_void_no_return "foo" []).1,
   (function_call_case_void_no_return "foo" []).2 (by decide)⟩

/-- Definition table binding only "foo", to a parameterless void function. -/
def dupDefs : String → Option ContractDef :=
  fun n => if n = "foo" then some (ContractDef.function [] none) else none

/-- C2 counterexample: the interface list `["foo", "foo"]` has two distinct
entries resolving to the same selector, yet `switch` does not fail with a
duplicate-selector error: it succeeds and returns a switch holding both
identically-keyed cases. -/
theorem switch_duplicate_selector_counterexample :
    (function_call_case "foo" [] none).selector =
      (function_call_case "foo" [] none).selector ∧
    switch ["foo", "foo"] dupDefs =
      Except.ok
        { scrutinee := YulExpression.call "callval" [.literal "0", .literal "4"]
          cases := [function_call_case "foo" [] none,
                    function_call_case "foo" [] none] } :=
  ⟨rfl, rfl⟩

/-- C2 (amended): `switch` performs no duplicate-selector detection. When an
interface repeats an entry bound to a function, assembly succeeds and emits a
switch containing one case per entry, in interface order, all keyed by the
same selector — the earlier case shadowing the later ones at runtime. -/
theorem switch_emits_duplicate_cases :
    ∀ (name : String) (defs : String → Option ContractDef)
      (params : List FixedSize) (returns : Option FixedSize),
      defs name = some (ContractDef.function params returns) →
      switch [name, name] defs =
        Except.ok
          { scrutinee := YulExpression.call "callval" [.literal "0", .literal "4"]
            cases := [function_call_case name params returns,
                      function_call_case name params returns] } := by
  intro name defs params returns h
  simp [switch, collectCases, case', h, Except.map, bind, Except.bind, pure,
    Except.pure]

/-- Witness for the amended C2 at the duplicated entry "foo". -/
theorem switch_emits_duplicate_cases_witness :
    switch ["foo", "foo"] dupDefs =
      Except.ok
        { scrutinee := YulExpression.call "callval" [.literal "0", .literal "4"]
          cases := [function_call_case "foo" [] none,
                    function_call_case "foo" [] none] } :=
  switch_emits_duplicate_cases "foo" dupDefs [] none rfl

lemma paramExprsFrom_length (params : List FixedSize) :
    ∀ ptr : Nat, (paramExprsFrom ptr params).length = params.length := by
  induction params with
  | nil => intro ptr; rfl
  | cons p rest ih => intro ptr; simp [paramExprsFrom, ih]

lemma paramExprsFrom_get (params : List FixedSize) :
    ∀ (ptr i : Nat), i < params.length →
      (paramExprsFrom ptr params)[i]? =
        some (accessorExpr (params.getD i (FixedSize.base Base.u256))
          (ptr + ((params.take i).map FixedSize.size).sum)) := by
  induction params with
  | nil => intro ptr i h; simp at h
  | cons p rest ih =>
    intro ptr i h
    cases i with
    | zero =>
      cases p <;> simp [paramExprsFrom, accessorExpr]
    | succ j =>
      have hj : j < rest.length := by simpa using h
      have := ih (ptr + p.size) j hj
      simp only [paramExprsFrom, List.getElem?_cons_succ, List.getD_cons_succ,
        List.take_succ_cons, List.map_cons, List.sum_cons, this]
      congr 2
      omega

/-- C5: `parameter_expressions` emits exactly one accessor per parameter, in
declaration order; the `i`-th accessor reads at offset 4 plus the widths of
the preceding parameters, so offsets start at 4 and advance by exactly the
preceding parameter's byte width; scalars are direct `callval` reads and
composites are `calltomem` copies, each of the parameter's byte width, a
composite's width being dimension × inner scalar width. -/
theorem parameter_expressions_offsets :
    ∀ params : List FixedSize,
      (parameter_expressions params).length = params.length ∧
      (∀ i, i < params.length →
        (parameter_expressions params)[i]? =
          some (accessorExpr (params.getD i (FixedSize.base Base.u256))
            (offsetAt params i))) ∧
      offsetAt params 0 = 4 ∧
      (∀ i, i < params.length →
        offsetAt params (i + 1) =
          offsetAt params i + (params.getD i (FixedSize.base Base.u256)).size) ∧
      (∀ a : Array, (FixedSize.array a).size = a.dimension * a.inner.size) := by
  intro params
  refine ⟨paramExprsFrom_length params 4,
          fun i h => paramExprsFrom_get params 4 i h, rfl, fun i h => ?_,
          fun a => rfl⟩
  have hx : params[i]? = some (params.getD i (FixedSize.base Base.u256)) := by
    rw [List.getElem?_eq_getElem h]
    congr 1
    rw [List.getD_eq_getElem?_getD, List.getElem?_eq_getElem h]
    rfl
  have ht : params.take (i + 1) =
      params.take i ++ [params.getD i (FixedSize.base Base.u256)] := by
    rw [List.take_succ, hx]
    rfl
  simp only [offsetAt, ht, List.map_append, List.sum_append, List.map_cons,
    List.map_nil, List.sum_cons, List.sum_nil]
  omega

/-- Witness for C5 on a scalar followed by a composite: the second accessor
is a `calltomem` copy starting at 4 + 32 = 36 of total width 2 × 32 = 64. -/
theorem parameter_expressions_offsets_witness :
    (parameter_expressions
        [FixedSize.base Base.u256, FixedSize.array ⟨2, Base.u256⟩])[1]? =
      some (YulExpression.call "calltomem" [.literal "36", .literal "64"]) := by
  have h := (parameter_expressions_offsets
    [FixedSize.base Base.u256, FixedSize.array ⟨2, Base.u256⟩]).2.1 1 (by decide)
  exact h.trans rfl

lemma collectCases_error (defs : String → Option ContractDef)
    (name : String) (e : CompileError) :
    ∀ (pre post : List String),
      (∀ m ∈ pre, ∃ c, case' m defs = Except.ok c) →
      case' name defs = Except.error e →
      collectCases defs (pre ++ name :: post) = Except.error e := by
  intro pre
  induction pre with
  | nil =>
    intro post _ hname
    simp [collectCases, hname, bind, Except.bind]
  | cons m rest ih =>
    intro post hall hname
    obtain ⟨c, hc⟩ := hall m (List.mem_cons_self m rest)
    have hrest := ih post (fun x hx => hall x (List.mem_cons_of_mem m hx)) hname
    simp [collectCases, hc, hrest, bind, Except.bind]

/-- C8: a dispatch entry resolving to a non-function definition fails with
the distinct "Cannot create case from definition" error, an entry absent
from the table fails with the distinct "No definition for name" error (the
two errors differ), and `switch` aborts at the first failing entry,
propagating that error and emitting no switch at all. -/
theorem case_switch_error_handling :
    (CompileError.mk "Cannot create case from definition" ≠
      CompileError.mk "No definition for name") ∧
    ∀ (name : String) (defs : String → Option ContractDef),
      (defs name = some ContractDef.other →
        case' name defs =
          Except.error ⟨"Cannot create case from definition"⟩) ∧
      (defs name = none →
        case' name defs = Except.error ⟨"No definition for name"⟩) ∧
      (∀ (pre post : List String) (e : CompileError),
        (∀ m ∈ pre, ∃ c, case' m defs = Except.ok c) →
        case' name defs = Except.error e →
        switch (pre ++ name :: post) defs = Except.error e) := by
  refine ⟨by decide, fun name defs => ⟨fun h => ?_, fun h => ?_, ?_⟩⟩
  · simp [case', h]
  · simp [case', h]
  · intro pre post e hall hname
    have := collectCases_error defs name e pre post hall hname
    simp [switch, this, Except.map]

/-- Definition table used by the C8 and C9 witnesses: "foo" is a
parameterless void function, "bal" is a non-callable definition, and every
other name is absent. -/
def mixedDefs : String → Option ContractDef :=
  fun n =>
    if n = "foo" then some (ContractDef.function [] none)
    else if n = "bal" then some ContractDef.other
    else none

/-- Witness for C8: with one succeeding entry before it, the non-callable
entry "bal" aborts the whole switch with the non-callable error. -/
theorem case_switch_error_handling_witness :
    switch ["foo", "bal", "missing"] mixedDefs =
      Except.error ⟨"Cannot create case from definition"⟩ := by
  have h := (case_switch_error_handling.2 "bal" mixedDefs).2.2
    ["foo"] ["missing"] ⟨"Cannot create case from definition"⟩
    (by intro m hm; simp at hm; subst hm
        exact ⟨function_call_case "foo" [] none, rfl⟩)
    ((case_switch_error_handling.2 "bal" mixedDefs).1 rfl)
  exact h

lemma collectCases_ok_spec (defs : String → Option ContractDef) :
    ∀ (interface : List String) (cases : List Case),
      collectCases defs interface = Except.ok cases →
      cases.length = interface.length ∧
      ∀ i, i < interface.length →
        ∃ params returns,
          defs (interface.getD i "") =
            some (ContractDef.function params returns) ∧
          cases[i]? =
            some (function_call_case (interface.getD i "") params returns) := by
  intro interface
  induction interface with
  | nil =>
    intro cases h
    simp [collectCases] at h
    subst h
    exact ⟨rfl, fun i hi => absurd hi (by simp)⟩
  | cons n rest ih =>
    intro cases h
    simp only [collectCases, bind, Except.bind] at h
    cases hc : case' n defs with
    | error e => rw [hc] at h; exact absurd h (by simp)
    | ok c =>
      rw [hc] at h
      cases hr : collectCases defs rest with
      | error e => rw [hr] at h; exact absurd h (by simp)
      | ok cs =>
        rw [hr] at h
        simp only [pure, Except.pure, Except.ok.injEq] at h
        subst h
        obtain ⟨hlen, hidx⟩ := ih cs hr
        have hdef : ∃ params returns,
            defs n = some (ContractDef.function params returns) ∧
            c = function_call_case n params returns := by
          revert hc
          unfold case'
          cases hd : defs n with
          | none => intro hc; exact absurd hc (by simp)
          | some d =>
            cases d with
            | function params returns =>
              intro hc
              simp only [Except.ok.injEq] at hc
              exact ⟨params, returns, rfl, hc.symm⟩
            | other => intro hc; exact absurd hc (by simp)
        constructor
        · simpa using hlen
        · intro i hi
          cases i with
          | zero =>
            obtain ⟨params, returns, hdn, hcfn⟩ := hdef
            exact ⟨params, returns, by simpa using hdn, by simp [hcfn]⟩
          | succ j =>
            have hj : j < rest.length := by simpa using hi
            obtain ⟨params, returns, hdn, hcs⟩ := hidx j hj
            exact ⟨params, returns, by simpa using hdn, by simpa using hcs⟩

/-- C9: whenever `switch` succeeds, the emitted statement is one multi-way
branch whose scrutinee is the 4-byte read `callval(0, 4)` of call-data
offset 0, with exactly one case per interface entry, in interface order,
each being the case built from that entry's function definition. -/
theorem switch_structure :
    ∀ (interface : List String) (defs : String → Option ContractDef)
      (s : Switch),
      switch interface defs = Except.ok s →
      s.scrutinee = YulExpression.call "callval" [.literal "0", .literal "4"] ∧
      s.cases.length = interface.length ∧
      ∀ i, i < interface.length →
        ∃ params returns,
          defs (interface.getD i "") =
            some (ContractDef.function params returns) ∧
          s.cases[i]? =
            some (function_call_case (interface.getD i "") params returns) := by
  intro interface defs s h
  unfold switch at h
  cases hc : collectCases defs interface with
  | error e => rw [hc] at h; exact absurd h (by simp [Except.map])
  | ok cases =>
    rw [hc] at h
    simp only [Except.map, Except.ok.injEq] at h
    subst h
    obtain ⟨hlen, hidx⟩ := collectCases_ok_spec defs interface cases hc
    exact ⟨rfl, hlen, hidx⟩

/-- Witness for C9 on the one-entry interface ["foo"]. -/
theorem switch_structure_witness :
    ∃ params returns,
      mixedDefs "foo" = some (ContractDef.function params returns) ∧
      ([function_call_case "foo" [] none] : List Case)[0]? =
        some (function_call_case "foo" params returns) := by
  have h := switch_structure ["foo"] mixedDefs
    { scrutinee := YulExpression.call "callval" [.literal "0", .literal "4"]
      cases := [function_call_case "foo" [] none] } rfl
  exact h.2.2 0 (by decide)

lemma string_append_assoc (a b c : String) : a ++ b ++ c = a ++ (b ++ c) := by
  apply String.ext
  simp [String.data_append, List.append_assoc]

set_option maxRecDepth 10000

/-- C1: for the function name "bar" with the single parameter type uint256,
`selector_literal` produces exactly the literal "0x0423a132", which is the
first 4 bytes of the Keccak-256 hash of the canonical signature string
"bar(uint256)", rendered as "0x" followed by 8 hex digits. -/
theorem selector_literal_bar_uint256 :
    selector_literal "bar" [FixedSize.base Base.u256] = "0x0423a132" ∧
    signature "bar" [FixedSize.base Base.u256] = "bar(uint256)" ∧
    "0x0423a132" =
      "0x" ++ hexEncode (List.take 4 (keccakBytes (strBytes "bar(uint256)") 32)) ∧
    "0x0423a132".length = 2 + 8 :=
  ⟨by decide, by decide, by decide, by decide⟩

/-- C3: the canonical signature string hashed for the selector is the name
followed by the parameter type names joined by commas inside parentheses
(empty parameter list giving "name()"), the return type never being an input
of `selector_literal`, and the type names follow the exact mapping uint256 /
address / byte for scalars, "bytesN" for a composite over byte, and "S[N]"
for a composite over any other scalar S. -/
theorem signature_canonicalization :
    (∀ name : String, signature name [] = name ++ "()") ∧
    (∀ (name : String) (params : List FixedSize),
      signature name params =
        name ++ "(" ++ String.intercalate "," (params.map abi_type) ++ ")") ∧
    (∀ (name : String) (params : List FixedSize),
      selector_literal name params =
        "0x" ++ hexEncode (keccakBytes (strBytes (signature name params)) 4)) ∧
    abi_type (FixedSize.base Base.u256) = "uint256" ∧
    abi_type (FixedSize.base Base.address) = "address" ∧
    abi_type (FixedSize.base Base.byte) = "byte" ∧
    (∀ n : Nat, abi_type (FixedSize.array ⟨n, Base.byte⟩) =
      "bytes" ++ toString n) ∧
    (∀ (n : Nat) (s : Base), s ≠ Base.byte →
      abi_type (FixedSize.array ⟨n, s⟩) =
        abi_type_base s ++ "[" ++ toString n ++ "]") := by
  refine ⟨fun name => ?_, fun name params => rfl, fun name params => rfl,
          rfl, rfl, rfl, fun n => rfl, fun n s h => ?_⟩
  · show name ++ "(" ++ String.intercalate "," ([] : List String) ++ ")" =
      name ++ "()"
    rw [show String.intercalate "," ([] : List String) = "" from rfl]
    rw [string_append_assoc name "(" "", string_append_assoc name ("(" ++ "") ")"]
    rw [show ("(" ++ "" : String) ++ ")" = "()" from by decide]
  · simp only [abi_type]
    rw [if_neg h]

/-- Witness for C3 at the spec's vectors: empty parameter list, bytes32, and
uint256[4]. -/
theorem signature_canonicalization_witness :
    signature "bar" [] = "bar()" ∧
    abi_type (FixedSize.array ⟨32, Base.byte⟩) = "bytes32" ∧
    abi_type (FixedSize.array ⟨4, Base.u256⟩) = "uint256[4]" :=
  ⟨signature_canonicalization.1 "bar",
   (signature_canonicalization.2.2.2.2.2.2.1 32).trans (by decide),
   (signature_canonicalization.2.2.2.2.2.2.2 4 Base.u256 (by decide)).trans
     (by decide)⟩

/-- C10: the semantic-layer entry point `assign` hits `unimplemented!` (a
panic, not a returned `SemanticError`) on every assignment statement whose
target list has more than one target, whatever the expression and slice
analyzers do. -/
theorem assign_multi_target_panics :
    ∀ (exprA slicesA : Expr → Except SemanticError Unit)
      (targets : List Expr) (value : Expr),
      targets.length > 1 →
      assign exprA slicesA (FuncStmt.assignStmt targets value) =
        Outcome.panicked "not implemented" := by
  intro exprA slicesA targets value h
  simp [assign, h]

/-- Witness for C10 at a two-target assignment. -/
theorem assign_multi_target_panics_witness :
    assign (fun _ => Except.ok ()) (fun _ => Except.ok ())
      (FuncStmt.assignStmt [Expr.name "a", Expr.name "b"] (Expr.name "c")) =
      Outcome.panicked "not implemented" :=
  assign_multi_target_panics _ _ _ _ (by decide)

end Fe
